import Mathlib

/-!
Shallow embedding of `src/app/main.py` of the le-manager repository.

The program is a small web front-end that records accounts and jobs in a
SQLite database, invokes the external `certbot` tool as a subprocess, scans
a directory tree for issued certificates, and serves certificate files.

Modelling conventions:
* SQLite rows become Lean structures; the two tables and the directory tree
  live in the explicit state `St`, threaded through the handlers.
* `subprocess.run` (the external-tool invoker) is an oracle parameter
  `run : List String → Nat → RunResult`, taking the argument vector and the
  timeout; `RunResult` is `Except` of the exception message or the triple
  (returncode, stdout, stderr), mirroring `run_certbot`.
* `datetime.utcnow().isoformat()` timestamps are oracle string parameters.
* Python `str` content manipulation (`replace`/`split`/`strip`) is carried
  out on `List Char`, because those core `String` functions are faithful to
  Python there and kernel-reducible on `List Char`.
* Lexicographic comparison of directory names (Python `sorted` over paths)
  is `lexLe` on the character lists, and the sort itself is a stable
  insertion sort, which agrees with Python's stable `sorted`.
-/

namespace LEManager

/-! ### Python string primitives on character lists -/

/-- Python `s.replace(",", " ")` for the single characters used by the code. -/
def commaToSpace (s : List Char) : List Char :=
  s.map (fun c => if c = ',' then ' ' else c)

/-- Python `s.split()` with no argument: split on whitespace runs, dropping
empty tokens. -/
def pySplitWhitespace (s : List Char) : List (List Char) :=
  (List.splitOnP (fun c => c.isWhitespace) s).filter (fun t => t ≠ [])

/-- Python `s.strip()`: remove leading and trailing whitespace. -/
def pyStrip (s : List Char) : List Char :=
  ((s.dropWhile Char.isWhitespace).reverse.dropWhile Char.isWhitespace).reverse

/-- The suffix of `s` after the first occurrence of `pat`, or `none` when
`pat` does not occur: Python `s.split(pat, 1)[1]`, with `none` for the
`IndexError` case, and `isSome` for `pat in s`. -/
def subAfter (pat : List Char) : List Char → Option (List Char)
  | [] => if pat = [] then some [] else none
  | c :: cs =>
    if pat.isPrefixOf (c :: cs) then some ((c :: cs).drop pat.length)
    else subAfter pat cs

/-- Lexicographic comparison of two character lists by code point, the order
Python uses to sort the directory-entry paths. -/
def lexLe : List Char → List Char → Bool
  | [], _ => true
  | _ :: _, [] => false
  | a :: as, b :: bs => if a < b then true else if b < a then false else lexLe as bs

/-- Strict version of `lexLe`. -/
def lexLt (a b : List Char) : Prop := lexLe a b = true ∧ a ≠ b

/-! ### Configuration constants from the top of `main.py` -/

def APP_DATA : String := "/data"

def CHALLENGE_WEBROOT : String := "/var/www/acme-challenges"

/-! ### Database rows and the program state -/

/-- A row of the `accounts` table. -/
structure Account where
  id : Nat
  name : String
  email : String
  staging : Nat
  created_at : String
deriving DecidableEq

/-- A row of the `jobs` table. -/
structure Job where
  id : Nat
  kind : String
  status : String
  created_at : String
  finished_at : Option String
  account_id : Option Nat
  domains : Option String
  stdout : Option String
  stderr : Option String
deriving DecidableEq

/-- The mutable state the handlers touch: both tables, the AUTOINCREMENT
counters, and the set of directories that exist on disk. -/
structure St where
  accounts : List Account
  nextAccountId : Nat
  jobs : List Job
  nextJobId : Nat
  dirs : List String
deriving DecidableEq

/-- The state after `init_db` on a fresh database: empty tables, SQLite
AUTOINCREMENT counters starting at 1, no account directories. -/
def st0 : St := ⟨[], 1, [], 1, []⟩

/-- Result of one `subprocess.run` call: the raised exception's message, or
(returncode, stdout, stderr). -/
abbrev RunResult := Except String (Int × String × String)

/-- The HTTP responses the handlers produce. -/
inductive Response where
  | redirect (location : String) (code : Nat)
  | plain (body : String) (code : Nat)
  | pemAttachment (body : String) (filename : String)
  | fileDownload (path : String) (mediaType : String) (filename : String)
  | jsonError (error : String) (code : Nat)
  | jsonCron (job_id : Nat) (status : String)
deriving DecidableEq

/-! ### Database operations used by the handlers -/

/-- `INSERT INTO accounts(name,email,staging,created_at)`; returns
`cur.lastrowid` and the new state. -/
def insertAccount (s : St) (name email : String) (staging : Nat) (ts : String) :
    Nat × St :=
  let aid := s.nextAccountId
  (aid, { s with accounts := s.accounts ++ [⟨aid, name, email, staging, ts⟩],
                 nextAccountId := aid + 1 })

/-- `INSERT INTO jobs(kind,status,created_at[,account_id][,domains])` with
`status='running'`; returns `cur.lastrowid` and the new state. -/
def insertJob (s : St) (kind : String) (ts : String)
    (account_id : Option Nat) (domains : Option String) : Nat × St :=
  let jid := s.nextJobId
  (jid, { s with
            jobs := s.jobs ++
              [⟨jid, kind, "running", ts, none, account_id, domains, none, none⟩],
            nextJobId := jid + 1 })

/-- The `SET` clause of the finalize update: status, finished timestamp and
both captured output streams, written together. -/
def finalizeRow (j : Job) (status ts out err : String) : Job :=
  { j with status := status, finished_at := some ts,
           stdout := some out, stderr := some err }

/-- `UPDATE jobs SET status=?, finished_at=?, stdout=?, stderr=? WHERE id=?`. -/
def updateJob (s : St) (jid : Nat) (status ts out err : String) : St :=
  { s with jobs := s.jobs.map (fun j =>
      if j.id = jid then finalizeRow j status ts out err else j) }

/-- `SELECT * FROM jobs WHERE id=?`. -/
def jobById (s : St) (jid : Nat) : Option Job :=
  s.jobs.find? (fun j => j.id == jid)

/-- `Path.mkdir(parents=True, exist_ok=True)` on one path. -/
def mkdirP (s : St) (p : String) : St :=
  if s.dirs.contains p then s else { s with dirs := s.dirs ++ [p] }

/-- `account_dirs(account_id)`: the config, work and logs directories. -/
def account_dirs (account_id : Nat) : String × String × String :=
  let base := APP_DATA ++ "/accounts/" ++ toString account_id
  (base ++ "/config", base ++ "/work", base ++ "/logs")

/-- The `for p in dirs.values(): p.mkdir(...)` loop. -/
def mkAccountDirs (s : St) (account_id : Nat) : St :=
  let (c, w, l) := account_dirs account_id
  mkdirP (mkdirP (mkdirP s c) w) l

/-! ### The try/except around `run_certbot` -/

/-- `status = "ok" if rc == 0 else "failed"`, or `"failed"` when the
invocation raised. -/
def runStatus : RunResult → String
  | .ok (rc, _, _) => if rc = 0 then "ok" else "failed"
  | .error _ => "failed"

/-- Captured stdout: the process output, or `""` when the invocation raised. -/
def runStdout : RunResult → String
  | .ok (_, out, _) => out
  | .error _ => ""

/-- Captured stderr: the process output, or the synthesized
`f"Exception: {e}"` message when the invocation raised. -/
def runStderr : RunResult → String
  | .ok (_, _, err) => err
  | .error e => "Exception: " ++ e

/-! ### Domain normalization and the job handlers -/

/-- `[d.strip() for d in domains.replace(",", " ").split() if d.strip()]`. -/
def normalizeDomains (domains : String) : List String :=
  ((pySplitWhitespace (commaToSpace domains.toList)).filter
      (fun d => pyStrip d ≠ [])).map (fun d => String.mk (pyStrip d))

/-- The certbot argument vector built by `certs_issue_http`. -/
def issueCmd (acc : Account) (account_id : Nat) (doms : List String) :
    List String :=
  let (cdir, wdir, ldir) := account_dirs account_id
  ["certbot", "certonly",
   "--non-interactive", "--agree-tos", "--no-eff-email",
   "--email", acc.email,
   "--webroot", "-w", CHALLENGE_WEBROOT,
   "--config-dir", cdir, "--work-dir", wdir, "--logs-dir", ldir]
  ++ (if acc.staging = 1 then ["--staging"] else [])
  ++ doms.flatMap (fun d => ["-d", d])

/-- `POST /accounts/create`. -/
def accounts_create (ts : String) (name email : String) (staging : Nat)
    (s : St) : Response × St :=
  let (aid, s1) := insertAccount s name email staging ts
  let s2 := mkAccountDirs s1 aid
  (.redirect "/" 303, s2)

/-- `POST /certs/issue_http`. -/
def certs_issue_http (run : List String → Nat → RunResult) (ts1 ts2 : String)
    (account_id : Nat) (domains : String) (s : St) : Response × St :=
  let doms := normalizeDomains domains
  if doms = [] then (.redirect "/" 303, s)
  else
    match s.accounts.find? (fun a => a.id == account_id) with
    | none => (.redirect "/" 303, s)
    | some acc =>
      let (job_id, s1) :=
        insertJob s "issue_http" ts1 (some account_id)
          (some (String.intercalate " " doms))
      let s2 := mkAccountDirs s1 account_id
      let res := run (issueCmd acc account_id doms) 1200
      let s3 := updateJob s2 job_id (runStatus res) ts2 (runStdout res)
        (runStderr res)
      (.redirect "/" 303, s3)

/-- The certbot argument vector built by `certs_renew_all` and
`api_cron_renew`. -/
def renewAllCmd : List String :=
  ["certbot", "renew", "--webroot", "-w", CHALLENGE_WEBROOT]

/-- The certbot argument vector built by `certs_renew_one`. -/
def renewOneCmd (name : String) : List String :=
  ["certbot", "renew", "--cert-name", name, "--webroot", "-w",
   CHALLENGE_WEBROOT]

/-- `POST /certs/renew_all`. -/
def certs_renew_all (run : List String → Nat → RunResult) (ts1 ts2 : String)
    (s : St) : Response × St :=
  let (job_id, s1) := insertJob s "renew_all" ts1 none none
  let res := run renewAllCmd 1200
  let s2 := updateJob s1 job_id (runStatus res) ts2 (runStdout res)
    (runStderr res)
  (.redirect "/" 303, s2)

/-- `POST /certs/renew_one`. -/
def certs_renew_one (run : List String → Nat → RunResult) (ts1 ts2 : String)
    (name : String) (s : St) : Response × St :=
  let (job_id, s1) := insertJob s "renew_one" ts1 none (some name)
  let res := run (renewOneCmd name) 1200
  let s2 := updateJob s1 job_id (runStatus res) ts2 (runStdout res)
    (runStderr res)
  (.redirect "/" 303, s2)

/-- `GET /api/cron/renew?token=...`; `cronToken` is the `CRON_TOKEN`
environment value. -/
def api_cron_renew (cronToken : String) (run : List String → Nat → RunResult)
    (ts1 ts2 : String) (token : String) (s : St) : Response × St :=
  if cronToken = "" ∨ token ≠ cronToken then
    (.jsonError "unauthorized" 401, s)
  else
    let (job_id, s1) := insertJob s "cron_renew_all" ts1 none none
    let res := run renewAllCmd 1200
    let s2 := updateJob s1 job_id (runStatus res) ts2 (runStdout res)
      (runStderr res)
    (.jsonCron job_id (runStatus res), s2)

/-! ### The filesystem certificate scanner (`list_live_certs`) -/

/-- One entry of `live.iterdir()`: a certificate-name directory candidate,
with the set of file names that exist directly under it. -/
structure LiveEntry where
  name : String
  isDir : Bool
  files : List String
deriving DecidableEq

/-- One entry of `accounts_root.iterdir()`: an account directory candidate,
with its `config/live` subtree. -/
structure AccEntry where
  name : String
  isDir : Bool
  liveExists : Bool
  liveEntries : List LiveEntry
deriving DecidableEq

/-- The part of the filesystem the scanner reads, as directory listings in
the (arbitrary) order the OS enumerates them. -/
structure ScanFS where
  accountsRootExists : Bool
  accountEntries : List AccEntry
deriving DecidableEq

/-- Sort order of `sorted(accounts_root.iterdir())`: lexicographic on the
entry name. -/
def accEntryLe (a b : AccEntry) : Prop := lexLe a.name.toList b.name.toList = true

instance : DecidableRel accEntryLe := fun a b => by unfold accEntryLe; infer_instance

/-- Sort order of `sorted(live.iterdir())`: lexicographic on the entry name. -/
def liveEntryLe (a b : LiveEntry) : Prop := lexLe a.name.toList b.name.toList = true

instance : DecidableRel liveEntryLe := fun a b => by unfold liveEntryLe; infer_instance

/-- Python `sorted` is a stable sort; insertion sort is stable, so it yields
the same list. -/
def sortAccEntries (l : List AccEntry) : List AccEntry :=
  List.insertionSort accEntryLe l

def sortLiveEntries (l : List LiveEntry) : List LiveEntry :=
  List.insertionSort liveEntryLe l

/-- The three-file inclusion test of the scanner:
`fullchain.pem`, `privkey.pem` and `cert.pem` all exist. -/
def certFilesPresent (d : LiveEntry) : Bool :=
  (d.files.contains "fullchain.pem" && d.files.contains "privkey.pem") &&
    d.files.contains "cert.pem"

/-- Result of the `openssl x509 -enddate` subprocess call: an exception
(launch failure or the 5-second timeout), or (returncode, stdout). -/
abbrev InspectResult := Except Unit (Int × String)

def notAfterMarker : List Char := "notAfter=".toList

/-- The try/except computing `expires_str` and `days_left` for one candidate.
`strptime` is the oracle for `datetime.strptime(s, "%b %d %H:%M:%S %Y %Z")`,
returning the parsed time as seconds (or `none` when parsing raises), and
`now` is `datetime.utcnow()` in seconds; `timedelta.days` is floor division
by 86400. When `strptime` raises, `expires_str` has already been assigned,
so the exception handler leaves it set. -/
def inspectExpiry (strptime : String → Option Int) (now : Int)
    (res : InspectResult) : Option String × Option Int :=
  match res with
  | .error _ => (none, none)
  | .ok (rc, stdout) =>
    if rc = 0 ∧ (subAfter notAfterMarker stdout.toList).isSome then
      match subAfter notAfterMarker (pyStrip stdout.toList) with
      | none => (none, none)
      | some suffix =>
        let expires := String.mk (pyStrip suffix)
        match strptime expires with
        | none => (some expires, none)
        | some dt => (some expires, some ((dt - now).fdiv 86400))
    else (none, none)

/-- One element of the list `list_live_certs` returns. -/
structure CertInfo where
  name : String
  account_id : String
  path : String
  expires : Option String
  days_left : Option Int
deriving DecidableEq

/-- `list_live_certs()`: scan `/data/accounts/<id>/config/live/<certname>/`.
`inspect` is the oracle for the `openssl` subprocess call, keyed by the
certificate path it is invoked on. -/
def list_live_certs (strptime : String → Option Int) (now : Int)
    (inspect : String → InspectResult) (fs : ScanFS) : List CertInfo :=
  if !fs.accountsRootExists then []
  else
    (sortAccEntries fs.accountEntries).flatMap (fun acc =>
      if !acc.isDir then []
      else if !acc.liveExists then []
      else
        (sortLiveEntries acc.liveEntries).flatMap (fun d =>
          if !d.isDir then []
          else if certFilesPresent d then
            let dirPath :=
              APP_DATA ++ "/accounts/" ++ acc.name ++ "/config/live/" ++ d.name
            let ed := inspectExpiry strptime now (inspect (dirPath ++ "/cert.pem"))
            [⟨d.name, acc.name, dirPath, ed.1, ed.2⟩]
          else []))

/-- The (account id, certificate name) keys of the candidates the scanner
includes, in scan order: a restatement of the traversal without the
inspection step, used to state that inclusion and order are independent of
the inspection outcomes. -/
def candidateKeys (fs : ScanFS) : List (String × String) :=
  if !fs.accountsRootExists then []
  else
    (sortAccEntries fs.accountEntries).flatMap (fun acc =>
      if !acc.isDir then []
      else if !acc.liveExists then []
      else
        ((sortLiveEntries acc.liveEntries).filter
            (fun d => d.isDir && certFilesPresent d)).map
          (fun d => (acc.name, d.name)))

/-! ### The export endpoints -/

/-- The files the export endpoints read, as a path-to-content map. -/
structure FS where
  files : List (String × String)
deriving DecidableEq

/-- `read_text()` of a path, `none` when the path does not exist. -/
def FS.read (fs : FS) (p : String) : Option String :=
  (fs.files.find? (fun q => q.1 == p)).map (fun q => q.2)

/-- `Path.exists()`. -/
def FS.pathExists (fs : FS) (p : String) : Bool := (fs.read p).isSome

/-- The `base` path each export handler computes:
`APP_DATA / "accounts" / account_id / "config" / "live" / name`. -/
def liveBase (account_id name : String) : String :=
  APP_DATA ++ "/accounts/" ++ account_id ++ "/config/live/" ++ name

/-- The `mapping.get(which)` dictionary lookup in `export_file`. -/
def exportWhichPath (account_id name which : String) : Option String :=
  (([("fullchain", liveBase account_id name ++ "/fullchain.pem"),
     ("privkey", liveBase account_id name ++ "/privkey.pem"),
     ("cert", liveBase account_id name ++ "/cert.pem"),
     ("chain", liveBase account_id name ++ "/chain.pem")].find?
      (fun kv => kv.1 == which)).map (fun kv => kv.2))

/-- `GET /export/{account_id}/{name}/{which}`. -/
def export_file (fs : FS) (account_id name which : String) : Response :=
  match exportWhichPath account_id name which with
  | none => .plain "not found" 404
  | some p =>
    if fs.pathExists p then
      .fileDownload p "application/x-pem-file" (name ++ "-" ++ which ++ ".pem")
    else .plain "not found" 404

/-- `GET /export/{account_id}/{name}/combined.pem`. In this model a path is
readable exactly when it exists, so the two existence checks and the two
`read_text()` calls become one `match`. -/
def export_combined_pem (fs : FS) (account_id name : String) : Response :=
  match fs.read (liveBase account_id name ++ "/fullchain.pem"),
        fs.read (liveBase account_id name ++ "/privkey.pem") with
  | some fullchain, some privkey =>
    .pemAttachment (fullchain ++ "\n" ++ privkey) (name ++ "-combined.pem")
  | _, _ => .plain "not found" 404

/-! ### Committed database writes, as a step system

Each handler commits its writes in stages (the insert is committed before
the external tool runs, the update after), so a concurrent reader can
observe the state between commits.  `DbOp` is the set of committed write
operations the handlers perform, and `applyOps` folds any interleaving of
them; decomposition lemmas below show each handler's effect is exactly such
a sequence, so every observable database state is an `applyOps` state. -/

inductive DbOp where
  | opInsertAccount (name email : String) (staging : Nat) (ts : String)
  | opInsertJob (kind ts : String) (account_id : Option Nat)
      (domains : Option String)
  | opFinalizeJob (jid : Nat) (res : RunResult) (ts : String)
  | opMkdir (p : String)

def applyOp (s : St) : DbOp → St
  | .opInsertAccount n e stg ts => (insertAccount s n e stg ts).2
  | .opInsertJob k ts aid doms => (insertJob s k ts aid doms).2
  | .opFinalizeJob jid res ts =>
    updateJob s jid (runStatus res) ts (runStdout res) (runStderr res)
  | .opMkdir p => mkdirP s p

def applyOps (s : St) (ops : List DbOp) : St := ops.foldl applyOp s

/-- The job-table invariant: the finished timestamp is set exactly when the
status is terminal. -/
def JobInv (j : Job) : Prop :=
  j.finished_at.isSome = true ↔ (j.status = "ok" ∨ j.status = "failed")

/-- Strict ordering on the (account id, certificate name) keys emitted by
the scanner: by account directory name first, certificate directory name
second, both lexicographic on the name strings. -/
def keyLt (x y : String × String) : Prop :=
  lexLt x.1.toList y.1.toList ∨ (x.1 = y.1 ∧ lexLt x.2.toList y.2.toList)

/-! ### Concrete fixtures used by the witness theorems -/

/-- An invocation oracle that reports a clean exit. -/
def runOk : List String → Nat → RunResult := fun _ _ => .ok (0, "out", "err")

/-- A state holding one account and no jobs. -/
def stEx : St := ⟨[⟨1, "acme", "admin@acme.test", 1, "t0"⟩], 2, [], 1, []⟩

/-- A committed-write sequence: one job inserted, then finalized. -/
def opsEx : List DbOp :=
  [.opInsertJob "renew_all" "t1" none none, .opFinalizeJob 1 (.ok (0, "out", "err")) "t2"]

/-- The job row `opsEx` produces. -/
def jobEx : Job :=
  ⟨1, "renew_all", "ok", "t1", some "t2", none, none, some "out", some "err"⟩

/-- A scanner filesystem with a single complete certificate directory. -/
def fsOne : ScanFS :=
  ⟨true, [⟨"1", true, true,
    [⟨"example.org", true, ["fullchain.pem", "privkey.pem", "cert.pem"]⟩]⟩]⟩

/-- A scanner filesystem with account directories named "2" and "10", each
holding one complete certificate directory. -/
def fsTen : ScanFS :=
  ⟨true, [⟨"2", true, true,
            [⟨"b", true, ["fullchain.pem", "privkey.pem", "cert.pem"]⟩]⟩,
          ⟨"10", true, true,
            [⟨"a", true, ["fullchain.pem", "privkey.pem", "cert.pem"]⟩]⟩]⟩

/-- A scanner filesystem whose certificate directory has `fullchain.pem` and
`cert.pem` but no `privkey.pem`. -/
def fsNoKey : ScanFS :=
  ⟨true, [⟨"1", true, true, [⟨"x", true, ["fullchain.pem", "cert.pem"]⟩]⟩]⟩

/-- An export filesystem holding the two PEM files `combined.pem` reads. -/
def fsPem : FS :=
  ⟨[(liveBase "1" "example.org" ++ "/fullchain.pem", "FULLCHAIN"),
    (liveBase "1" "example.org" ++ "/privkey.pem", "PRIVKEY")]⟩

/-! ## Theorems

First the order-theoretic facts about `lexLe`, then structural lemmas about
the scanner and the job-table operations, then one theorem per claim. -/

theorem lexLe_refl (a : List Char) : lexLe a a = true := by
  induction a with
  | nil => rfl
  | cons c cs ih => simp [lexLe, ih]

theorem lexLe_total (a b : List Char) : lexLe a b = true ∨ lexLe b a = true := by
  induction a generalizing b with
  | nil => left; rfl
  | cons c cs ih =>
    cases b with
    | nil => right; rfl
    | cons d ds =>
      rcases lt_trichotomy c d with h | h | h
      · left; simp [lexLe, h]
      · subst h
        rcases ih ds with h2 | h2
        · left; simp [lexLe, h2]
        · right; simp [lexLe, h2]
      · right; simp [lexLe, h]

theorem lexLe_trans : ∀ {a b c : List Char},
    lexLe a b = true → lexLe b c = true → lexLe a c = true := by
  intro a
  induction a with
  | nil => intro b c _ _; rfl
  | cons x xs ih =>
    intro b c h1 h2
    cases b with
    | nil => simp [lexLe] at h1
    | cons y ys =>
      cases c with
      | nil => simp [lexLe] at h2
      | cons z zs =>
        rcases lt_trichotomy x y with hxy | hxy | hxy
        · rcases lt_trichotomy y z with hyz | hyz | hyz
          · simp [lexLe, lt_trans hxy hyz]
          · subst hyz; simp [lexLe, hxy]
          · simp [lexLe, hyz, lt_asymm hyz] at h2
        · subst hxy
          simp only [lexLe, lt_irrefl, if_false] at h1
          rcases lt_trichotomy x z with hxz | hxz | hxz
          · simp [lexLe, hxz]
          · subst hxz
            simp only [lexLe, lt_irrefl, if_false] at h2
            simp [lexLe, ih h1 h2]
          · simp [lexLe, hxz, lt_asymm hxz] at h2
        · simp [lexLe, hxy, lt_asymm hxy] at h1

theorem lexLe_antisymm : ∀ {a b : List Char},
    lexLe a b = true → lexLe b a = true → a = b := by
  intro a
  induction a with
  | nil =>
    intro b h1 h2
    cases b with
    | nil => rfl
    | cons d ds => simp [lexLe] at h2
  | cons c cs ih =>
    intro b h1 h2
    cases b with
    | nil => simp [lexLe] at h1
    | cons d ds =>
      rcases lt_trichotomy c d with h | h | h
      · simp [lexLe, h, lt_asymm h] at h2
      · subst h
        simp only [lexLe, lt_irrefl, if_false] at h1 h2
        rw [ih h1 h2]
      · simp [lexLe, h, lt_asymm h] at h1

instance : IsTotal AccEntry accEntryLe :=
  ⟨fun a b => lexLe_total a.name.toList b.name.toList⟩

instance : IsTrans AccEntry accEntryLe :=
  ⟨fun _ _ _ h1 h2 => lexLe_trans h1 h2⟩

instance : IsTotal LiveEntry liveEntryLe :=
  ⟨fun a b => lexLe_total a.name.toList b.name.toList⟩

instance : IsTrans LiveEntry liveEntryLe :=
  ⟨fun _ _ _ h1 h2 => lexLe_trans h1 h2⟩

theorem string_eq_of_toList_eq {a b : String} (h : a.toList = b.toList) :
    a = b := by
  cases a; cases b; exact congrArg String.mk (by simpa [String.toList] using h)

/-- Two lists sorted under an asymmetric relation that are permutations of
each other are equal. -/
theorem eq_of_perm_of_pairwise {α : Type} {lt : α → α → Prop}
    (hasymm : ∀ a b, lt a b → lt b a → False) :
    ∀ {l1 l2 : List α}, l1.Perm l2 → l1.Pairwise lt → l2.Pairwise lt →
      l1 = l2 := by
  intro l1
  induction l1 with
  | nil => intro l2 hp _ _; exact hp.nil_eq
  | cons a t ih =>
    intro l2 hp h1 h2
    cases l2 with
    | nil => exact absurd hp.eq_nil (by simp)
    | cons b t2 =>
      by_cases hab : a = b
      · subst hab
        have ht : t.Perm t2 := hp.cons_inv
        rw [ih ht h1.tail h2.tail]
      · exfalso
        have hbmem : b ∈ a :: t := hp.mem_iff.mpr (by simp)
        have hamem : a ∈ b :: t2 := hp.mem_iff.mp (by simp)
        have hbt : b ∈ t := by
          rcases hbmem with _ | h
          · exact absurd rfl hab
          · assumption
        have hat : a ∈ t2 := by
          rcases hamem with _ | h
          · exact absurd rfl hab
          · assumption
        exact hasymm a b ((List.pairwise_cons.mp h1).1 b hbt)
          ((List.pairwise_cons.mp h2).1 a hat)

theorem flatMap_single_filter {α β : Type} (l : List α) (p : α → Bool) (f : α → β)
    (g : α → List β) (hg : ∀ d, g d = if p d then [f d] else []) :
    l.flatMap g = (l.filter p).map f := by
  induction l with
  | nil => rfl
  | cons a t ih =>
    rw [List.flatMap_cons, List.filter_cons, hg a]
    by_cases hp : p a = true
    · simp [hp, ih]
    · simp [hp, ih]

/-- The (account id, name) keys the scanner emits do not depend on the
inspection outcomes: they are exactly `candidateKeys`. -/
theorem scan_map_key (strptime : String → Option Int) (now : Int)
    (inspect : String → InspectResult) (fs : ScanFS) :
    (list_live_certs strptime now inspect fs).map (fun c => (c.account_id, c.name)) =
      candidateKeys fs := by
  unfold list_live_certs candidateKeys
  by_cases hroot : fs.accountsRootExists = true
  · simp only [hroot, Bool.not_true, Bool.false_eq_true, if_false]
    rw [List.map_flatMap]
    congr 1
    funext acc
    by_cases hdir : acc.isDir = true
    · by_cases hlive : acc.liveExists = true
      · simp only [hdir, hlive, Bool.not_true, Bool.false_eq_true, if_false]
        rw [List.map_flatMap]
        apply flatMap_single_filter
        intro d
        by_cases hd : d.isDir = true
        · by_cases hc : certFilesPresent d = true
          · simp [hd, hc]
          · simp [hd, hc]
        · simp [hd]
      · simp [hdir, hlive]
    · simp [hdir]
  · simp [Bool.not_eq_true] at hroot
    simp [hroot]


theorem finalize_map_fresh (jobs : List Job) (jid : Nat) (status ts out err : String)
    (h : ∀ j ∈ jobs, j.id ≠ jid) :
    jobs.map (fun j => if j.id = jid then finalizeRow j status ts out err else j)
      = jobs := by
  induction jobs with
  | nil => rfl
  | cons a t ih =>
    simp only [List.map_cons]
    rw [if_neg (h a (by simp)), ih (fun j hj => h j (by simp [hj]))]

theorem mkdirP_jobs (s : St) (p : String) : (mkdirP s p).jobs = s.jobs := by
  unfold mkdirP; split <;> rfl

theorem mkAccountDirs_jobs (s : St) (aid : Nat) :
    (mkAccountDirs s aid).jobs = s.jobs := by
  unfold mkAccountDirs
  simp [mkdirP_jobs]

theorem updateJob_append (s2 : St) (olds : List Job) (j0 : Job) (jid : Nat)
    (status ts out err : String) (hjobs : s2.jobs = olds ++ [j0])
    (hold : ∀ j ∈ olds, j.id ≠ jid) (hj0 : j0.id = jid) :
    (updateJob s2 jid status ts out err).jobs =
      olds ++ [finalizeRow j0 status ts out err] := by
  unfold updateJob
  simp only [hjobs, List.map_append, List.map_cons, List.map_nil,
    finalize_map_fresh olds jid status ts out err hold, if_pos hj0]

theorem runStatus_terminal (res : RunResult) :
    runStatus res = "ok" ∨ runStatus res = "failed" := by
  cases res with
  | ok t =>
    rcases t with ⟨rc, out, err⟩
    by_cases h : rc = 0
    · left; simp [runStatus, h]
    · right; simp [runStatus, h]
  | error e => right; rfl

theorem applyOp_jobInv (s : St) (op : DbOp) (h : ∀ j ∈ s.jobs, JobInv j) :
    ∀ j ∈ (applyOp s op).jobs, JobInv j := by
  cases op with
  | opInsertAccount n e stg ts => exact h
  | opMkdir p => intro j hj; rw [applyOp, mkdirP_jobs] at hj; exact h j hj
  | opInsertJob k ts aid doms =>
    intro j hj
    simp only [applyOp, insertJob, List.mem_append, List.mem_singleton] at hj
    rcases hj with hj | hj
    · exact h j hj
    · subst hj; simp [JobInv]
  | opFinalizeJob jid res ts =>
    intro j hj
    simp only [applyOp, updateJob, List.mem_map] at hj
    obtain ⟨j2, hj2, rfl⟩ := hj
    by_cases hid : j2.id = jid
    · simp only [if_pos hid, JobInv, finalizeRow, Option.isSome_some]
      simpa using runStatus_terminal res
    · simp only [if_neg hid]; exact h j2 hj2

theorem applyOps_jobInv (ops : List DbOp) :
    ∀ s, (∀ j ∈ s.jobs, JobInv j) → ∀ j ∈ (applyOps s ops).jobs, JobInv j := by
  induction ops with
  | nil => intro s h; exact h
  | cons op rest ih => intro s h; exact ih (applyOp s op) (applyOp_jobInv s op h)

theorem accounts_create_decomp (ts name email : String) (staging : Nat) (s : St) :
    (accounts_create ts name email staging s).2 =
      applyOps s [.opInsertAccount name email staging ts,
        .opMkdir (account_dirs s.nextAccountId).1,
        .opMkdir (account_dirs s.nextAccountId).2.1,
        .opMkdir (account_dirs s.nextAccountId).2.2] := rfl

theorem certs_renew_all_decomp (run : List String → Nat → RunResult)
    (ts1 ts2 : String) (s : St) :
    (certs_renew_all run ts1 ts2 s).2 =
      applyOps s [.opInsertJob "renew_all" ts1 none none,
        .opFinalizeJob s.nextJobId (run renewAllCmd 1200) ts2] := rfl

theorem certs_renew_one_decomp (run : List String → Nat → RunResult)
    (ts1 ts2 name : String) (s : St) :
    (certs_renew_one run ts1 ts2 name s).2 =
      applyOps s [.opInsertJob "renew_one" ts1 none (some name),
        .opFinalizeJob s.nextJobId (run (renewOneCmd name) 1200) ts2] := rfl

theorem api_cron_renew_decomp (cronToken : String)
    (run : List String → Nat → RunResult) (ts1 ts2 token : String) (s : St)
    (hauth : ¬(cronToken = "" ∨ token ≠ cronToken)) :
    (api_cron_renew cronToken run ts1 ts2 token s).2 =
      applyOps s [.opInsertJob "cron_renew_all" ts1 none none,
        .opFinalizeJob s.nextJobId (run renewAllCmd 1200) ts2] := by
  unfold api_cron_renew
  rw [if_neg hauth]
  rfl

theorem certs_issue_http_decomp (run : List String → Nat → RunResult)
    (ts1 ts2 : String) (account_id : Nat) (domains : String) (s : St)
    (acc : Account) (hdom : ¬(normalizeDomains domains = []))
    (hacc : s.accounts.find? (fun a => a.id == account_id) = some acc) :
    (certs_issue_http run ts1 ts2 account_id domains s).2 =
      applyOps s [.opInsertJob "issue_http" ts1 (some account_id)
          (some (String.intercalate " " (normalizeDomains domains))),
        .opMkdir (account_dirs account_id).1,
        .opMkdir (account_dirs account_id).2.1,
        .opMkdir (account_dirs account_id).2.2,
        .opFinalizeJob s.nextJobId
          (run (issueCmd acc account_id (normalizeDomains domains)) 1200) ts2] := by
  unfold certs_issue_http
  rw [if_neg hdom, hacc]
  rfl


theorem insert_then_update_jobs (s : St) (kind ts1 : String) (aid : Option Nat)
    (doms : Option String) (status ts2 out err : String)
    (hfresh : ∀ j ∈ s.jobs, j.id ≠ s.nextJobId) :
    (updateJob (insertJob s kind ts1 aid doms).2 s.nextJobId status ts2 out err).jobs
      = s.jobs ++ [⟨s.nextJobId, kind, status, ts1, some ts2, aid, doms,
          some out, some err⟩] :=
  updateJob_append _ s.jobs
    ⟨s.nextJobId, kind, "running", ts1, none, aid, doms, none, none⟩
    s.nextJobId status ts2 out err rfl hfresh rfl

theorem insert_mkdirs_update_jobs (s : St) (kind ts1 : String) (aid2 : Nat)
    (aid : Option Nat) (doms : Option String) (status ts2 out err : String)
    (hfresh : ∀ j ∈ s.jobs, j.id ≠ s.nextJobId) :
    (updateJob (mkAccountDirs (insertJob s kind ts1 aid doms).2 aid2)
        s.nextJobId status ts2 out err).jobs
      = s.jobs ++ [⟨s.nextJobId, kind, status, ts1, some ts2, aid, doms,
          some out, some err⟩] :=
  updateJob_append _ s.jobs
    ⟨s.nextJobId, kind, "running", ts1, none, aid, doms, none, none⟩
    s.nextJobId status ts2 out err (by rw [mkAccountDirs_jobs]; rfl) hfresh rfl

theorem jobById_append_fresh (s2 : St) (olds : List Job) (j0 : Job) (jid : Nat)
    (hjobs : s2.jobs = olds ++ [j0]) (hold : ∀ j ∈ olds, j.id ≠ jid)
    (hj0 : j0.id = jid) :
    jobById s2 jid = some j0 := by
  unfold jobById
  rw [hjobs, List.find?_append]
  have h1 : olds.find? (fun j => j.id == jid) = none :=
    List.find?_eq_none.mpr (fun j hj => by simpa using hold j hj)
  simp [h1, hj0]

/-- Claim C1: every database state reachable through the committed writes the
handlers perform satisfies: the finished timestamp of a job is set if and
only if its status is terminal ("ok" or "failed"); inserts create running
jobs with a null finished timestamp, and the single finalize update sets a
terminal status and the finished timestamp together. -/
theorem C1_finished_iff_terminal (ops : List DbOp) (j : Job)
    (hj : j ∈ (applyOps st0 ops).jobs) :
    j.finished_at.isSome = true ↔ (j.status = "ok" ∨ j.status = "failed") :=
  applyOps_jobInv ops st0 (by intro j2 hj2; cases hj2) j hj

theorem C1_finished_iff_terminal_witness :
    jobEx ∈ (applyOps st0 opsEx).jobs ∧
      (jobEx.finished_at.isSome = true ↔
        (jobEx.status = "ok" ∨ jobEx.status = "failed")) :=
  ⟨by decide, C1_finished_iff_terminal opsEx jobEx (by decide)⟩

/-- Claim C2: for all four job kinds, the finalized row stores status "ok"
exactly when the exit code is zero (else "failed") together with the
captured stdout/stderr; when the invocation raises, it stores status
"failed", empty stdout, and a synthesized "Exception: ..." stderr. -/
theorem C2_finalize_semantics (run : List String → Nat → RunResult)
    (ts1 ts2 : String) (s : St)
    (hfresh : ∀ j ∈ s.jobs, j.id ≠ s.nextJobId) :
    (∀ (rc : Int) (out err : String),
       (runStatus (.ok (rc, out, err)) = "ok" ↔ rc = 0) ∧
       runStdout (.ok (rc, out, err)) = out ∧
       runStderr (.ok (rc, out, err)) = err)
  ∧ (∀ e : String, runStatus (.error e) = "failed" ∧
       runStdout (.error e) = "" ∧ runStderr (.error e) = "Exception: " ++ e)
  ∧ (∀ (account_id : Nat) (domains : String) (acc : Account),
       normalizeDomains domains ≠ [] →
       s.accounts.find? (fun a => a.id == account_id) = some acc →
       ((certs_issue_http run ts1 ts2 account_id domains s).2).jobs =
         s.jobs ++ [⟨s.nextJobId, "issue_http",
           runStatus (run (issueCmd acc account_id (normalizeDomains domains)) 1200),
           ts1, some ts2, some account_id,
           some (String.intercalate " " (normalizeDomains domains)),
           some (runStdout (run (issueCmd acc account_id (normalizeDomains domains)) 1200)),
           some (runStderr (run (issueCmd acc account_id (normalizeDomains domains)) 1200))⟩])
  ∧ (((certs_renew_all run ts1 ts2 s).2).jobs =
       s.jobs ++ [⟨s.nextJobId, "renew_all", runStatus (run renewAllCmd 1200),
         ts1, some ts2, none, none, some (runStdout (run renewAllCmd 1200)),
         some (runStderr (run renewAllCmd 1200))⟩])
  ∧ (∀ name : String, ((certs_renew_one run ts1 ts2 name s).2).jobs =
       s.jobs ++ [⟨s.nextJobId, "renew_one", runStatus (run (renewOneCmd name) 1200),
         ts1, some ts2, none, some name, some (runStdout (run (renewOneCmd name) 1200)),
         some (runStderr (run (renewOneCmd name) 1200))⟩])
  ∧ (∀ cronToken : String, cronToken ≠ "" →
       ((api_cron_renew cronToken run ts1 ts2 cronToken s).2).jobs =
       s.jobs ++ [⟨s.nextJobId, "cron_renew_all", runStatus (run renewAllCmd 1200),
         ts1, some ts2, none, none, some (runStdout (run renewAllCmd 1200)),
         some (runStderr (run renewAllCmd 1200))⟩]) := by
  refine ⟨?_, ?_, ?_, ?_, ?_, ?_⟩
  · intro rc out err
    refine ⟨?_, rfl, rfl⟩
    constructor
    · intro h
      by_contra hrc
      simp [runStatus, hrc] at h
    · intro h; simp [runStatus, h]
  · intro e; exact ⟨rfl, rfl, rfl⟩
  · intro account_id domains acc hdom hacc
    unfold certs_issue_http
    rw [if_neg hdom, hacc]
    exact insert_mkdirs_update_jobs s "issue_http" ts1 account_id
      (some account_id) (some (String.intercalate " " (normalizeDomains domains)))
      (runStatus (run (issueCmd acc account_id (normalizeDomains domains)) 1200)) ts2
      (runStdout (run (issueCmd acc account_id (normalizeDomains domains)) 1200))
      (runStderr (run (issueCmd acc account_id (normalizeDomains domains)) 1200)) hfresh
  · exact insert_then_update_jobs s "renew_all" ts1 none none
      (runStatus (run renewAllCmd 1200)) ts2 (runStdout (run renewAllCmd 1200))
      (runStderr (run renewAllCmd 1200)) hfresh
  · intro name
    exact insert_then_update_jobs s "renew_one" ts1 none (some name)
      (runStatus (run (renewOneCmd name) 1200)) ts2
      (runStdout (run (renewOneCmd name) 1200))
      (runStderr (run (renewOneCmd name) 1200)) hfresh
  · intro cronToken hct
    unfold api_cron_renew
    rw [if_neg (by simp [hct])]
    exact insert_then_update_jobs s "cron_renew_all" ts1 none none
      (runStatus (run renewAllCmd 1200)) ts2 (runStdout (run renewAllCmd 1200))
      (runStderr (run renewAllCmd 1200)) hfresh

theorem C2_finalize_semantics_witness :
    (∀ j ∈ stEx.jobs, j.id ≠ stEx.nextJobId) ∧
      ((certs_renew_all runOk "t1" "t2" stEx).2).jobs =
        stEx.jobs ++ [⟨stEx.nextJobId, "renew_all", runStatus (runOk renewAllCmd 1200),
          "t1", some "t2", none, none, some (runStdout (runOk renewAllCmd 1200)),
          some (runStderr (runOk renewAllCmd 1200))⟩] :=
  ⟨by decide, (C2_finalize_semantics runOk "t1" "t2" stEx (by decide)).2.2.2.1⟩

/-- Claim C3: domain normalization splits on commas and whitespace, trims,
and drops empty tokens; "a.com, b.com ,, c.com" yields exactly
["a.com","b.com","c.com"]; an all-whitespace input yields the empty list,
in which case the issuance handler creates nothing and redirects. -/
theorem C3_domain_normalization :
    normalizeDomains "a.com, b.com ,, c.com" = ["a.com", "b.com", "c.com"]
  ∧ normalizeDomains "   " = []
  ∧ ∀ (run : List String → Nat → RunResult) (ts1 ts2 : String)
      (account_id : Nat) (domains : String) (s : St),
      normalizeDomains domains = [] →
      certs_issue_http run ts1 ts2 account_id domains s =
        (.redirect "/" 303, s) := by
  refine ⟨by decide, by decide, ?_⟩
  intro run ts1 ts2 account_id domains s h
  unfold certs_issue_http
  rw [if_pos h]

theorem C3_domain_normalization_witness :
    normalizeDomains "   " = [] ∧
      certs_issue_http runOk "t1" "t2" 1 "   " stEx = (.redirect "/" 303, stEx) :=
  ⟨by decide, C3_domain_normalization.2.2 runOk "t1" "t2" 1 "   " stEx (by decide)⟩

/-- Claim C4: an issuance request naming an account id with no matching
account row creates no job row and no directory and leaves the state
unchanged: the handler returns the redirect with the state it was given. -/
theorem C4_missing_account_no_effect (run : List String → Nat → RunResult)
    (ts1 ts2 : String) (account_id : Nat) (domains : String) (s : St)
    (hacc : s.accounts.find? (fun a => a.id == account_id) = none) :
    certs_issue_http run ts1 ts2 account_id domains s = (.redirect "/" 303, s) := by
  unfold certs_issue_http
  by_cases hdom : normalizeDomains domains = []
  · rw [if_pos hdom]
  · rw [if_neg hdom, hacc]

theorem C4_missing_account_no_effect_witness :
    stEx.accounts.find? (fun a => a.id == 7) = none ∧
      certs_issue_http runOk "t1" "t2" 7 "a.com" stEx = (.redirect "/" 303, stEx) :=
  ⟨by decide, C4_missing_account_no_effect runOk "t1" "t2" 7 "a.com" stEx (by decide)⟩

/-- Claim C7: with an empty configured token the cron endpoint answers 401
unauthorized for every supplied token and creates no job; with a non-empty
configured token and a matching supplied token it answers ok with the
numeric id of the job row it just inserted. -/
theorem C7_cron_token_gate (run : List String → Nat → RunResult)
    (ts1 ts2 : String) (s : St)
    (hfresh : ∀ j ∈ s.jobs, j.id ≠ s.nextJobId) :
    (∀ token : String, api_cron_renew "" run ts1 ts2 token s =
       (.jsonError "unauthorized" 401, s))
  ∧ (∀ cronToken : String, cronToken ≠ "" →
       (api_cron_renew cronToken run ts1 ts2 cronToken s).1 =
         .jsonCron s.nextJobId (runStatus (run renewAllCmd 1200))
     ∧ jobById (api_cron_renew cronToken run ts1 ts2 cronToken s).2 s.nextJobId =
         some ⟨s.nextJobId, "cron_renew_all", runStatus (run renewAllCmd 1200),
           ts1, some ts2, none, none, some (runStdout (run renewAllCmd 1200)),
           some (runStderr (run renewAllCmd 1200))⟩) := by
  constructor
  · intro token
    unfold api_cron_renew
    rw [if_pos (Or.inl rfl)]
  · intro cronToken hct
    constructor
    · unfold api_cron_renew
      rw [if_neg (by simp [hct])]
      rfl
    · unfold api_cron_renew
      rw [if_neg (by simp [hct])]
      exact jobById_append_fresh
        (updateJob (insertJob s "cron_renew_all" ts1 none none).2 s.nextJobId
          (runStatus (run renewAllCmd 1200)) ts2 (runStdout (run renewAllCmd 1200))
          (runStderr (run renewAllCmd 1200)))
        s.jobs
        ⟨s.nextJobId, "cron_renew_all", runStatus (run renewAllCmd 1200), ts1,
          some ts2, none, none, some (runStdout (run renewAllCmd 1200)),
          some (runStderr (run renewAllCmd 1200))⟩
        s.nextJobId
        (insert_then_update_jobs s "cron_renew_all" ts1 none none
          (runStatus (run renewAllCmd 1200)) ts2 (runStdout (run renewAllCmd 1200))
          (runStderr (run renewAllCmd 1200)) hfresh)
        hfresh rfl

theorem C7_cron_token_gate_witness :
    (∀ j ∈ stEx.jobs, j.id ≠ stEx.nextJobId) ∧
      api_cron_renew "" runOk "t1" "t2" "anything" stEx =
        (.jsonError "unauthorized" 401, stEx) ∧
      (api_cron_renew "sekret" runOk "t1" "t2" "sekret" stEx).1 =
        .jsonCron stEx.nextJobId (runStatus (runOk renewAllCmd 1200)) :=
  ⟨by decide,
   (C7_cron_token_gate runOk "t1" "t2" stEx (by decide)).1 "anything",
   ((C7_cron_token_gate runOk "t1" "t2" stEx (by decide)).2 "sekret" (by decide)).1⟩


/-- Claim C8: when both files exist, combined.pem is byte for byte the
fullchain content, a single newline, then the private-key content, served
as attachment "{name}-combined.pem"; when either file is missing the
handler returns 404 and nothing else. -/
theorem C8_combined_pem (fs : FS) (account_id name : String) :
    (∀ fullchain privkey : String,
       fs.read (liveBase account_id name ++ "/fullchain.pem") = some fullchain →
       fs.read (liveBase account_id name ++ "/privkey.pem") = some privkey →
       export_combined_pem fs account_id name =
         .pemAttachment (fullchain ++ "\n" ++ privkey) (name ++ "-combined.pem"))
  ∧ ((fs.read (liveBase account_id name ++ "/fullchain.pem") = none ∨
      fs.read (liveBase account_id name ++ "/privkey.pem") = none) →
      export_combined_pem fs account_id name = .plain "not found" 404) := by
  constructor
  · intro fc pk h1 h2
    unfold export_combined_pem
    rw [h1, h2]
  · intro h
    unfold export_combined_pem
    rcases h with h | h
    · rw [h]
    · rw [h]
      cases fs.read (liveBase account_id name ++ "/fullchain.pem") <;> rfl

theorem C8_combined_pem_witness :
    fsPem.read (liveBase "1" "example.org" ++ "/fullchain.pem") = some "FULLCHAIN" ∧
    fsPem.read (liveBase "1" "example.org" ++ "/privkey.pem") = some "PRIVKEY" ∧
    export_combined_pem fsPem "1" "example.org" =
      .pemAttachment ("FULLCHAIN" ++ "\n" ++ "PRIVKEY") ("example.org" ++ "-combined.pem") :=
  ⟨by decide, by decide,
   (C8_combined_pem fsPem "1" "example.org").1 "FULLCHAIN" "PRIVKEY"
     (by decide) (by decide)⟩

/-- Claim C10: the single-file export handler is total in its "which"
argument: a value outside fullchain/privkey/cert/chain maps to no path, and
the 404 branch is taken exactly when "which" is unknown or the mapped file
does not exist. -/
theorem C10_export_file_total (fs : FS) (account_id name which : String) :
    (export_file fs account_id name which = .plain "not found" 404 ↔
      (exportWhichPath account_id name which = none ∨
        ∃ p, exportWhichPath account_id name which = some p ∧
          fs.pathExists p = false))
  ∧ (exportWhichPath account_id name which = none ↔
      ¬ which ∈ (["fullchain", "privkey", "cert", "chain"] : List String)) := by
  constructor
  · unfold export_file
    cases hp : exportWhichPath account_id name which with
    | none => simp
    | some p =>
      by_cases he : fs.pathExists p = true
      · simp [he]
      · simp only [Bool.not_eq_true] at he
        simp [he]
  · constructor
    · intro h hmem
      simp only [List.mem_cons, List.not_mem_nil, or_false] at hmem
      rcases hmem with rfl | rfl | rfl | rfl <;>
        simp [exportWhichPath, List.find?] at h
    · intro h
      have hfind : List.find? (fun kv => kv.1 == which)
          [("fullchain", liveBase account_id name ++ "/fullchain.pem"),
           ("privkey", liveBase account_id name ++ "/privkey.pem"),
           ("cert", liveBase account_id name ++ "/cert.pem"),
           ("chain", liveBase account_id name ++ "/chain.pem")] = none := by
        apply List.find?_eq_none.mpr
        intro kv hkv
        simp only [List.mem_cons, List.not_mem_nil, or_false] at hkv
        rcases hkv with rfl | rfl | rfl | rfl <;>
          · simp only [beq_iff_eq]
            intro hw
            exact h (by simp [hw.symm])
      unfold exportWhichPath
      rw [hfind]
      rfl

/-- Claim C5, counterexample: when the inspection tool exits 0 and prints a
notAfter= line whose date string fails to parse, the certificate is listed
with a non-null expires field (the raw string) and a null days_left, so the
claim that every inspection failure reports both fields as null is false. -/
theorem C5_counterexample_unparsable_date :
    (list_live_certs (fun _ => none) 0 (fun _ => .ok (0, "notAfter=garbage")) fsOne).map
        (fun c => (c.expires, c.days_left)) = [(some "garbage", none)]
  ∧ some "garbage" ≠ (none : Option String) :=
  ⟨by decide, by decide⟩

/-- Claim C5, amended: an invocation exception, a non-zero exit, or output
without the notAfter marker reports both expires and days_left as null; an
exit-0 output with the marker whose date string fails to parse reports
days_left null but expires equal to the raw extracted string; in all cases
the candidate still appears and the scan of other candidates is unaffected,
since the emitted (account, name) keys do not depend on inspection at all. -/
theorem C5_inspection_failure (strptime : String → Option Int) (now : Int) :
    (∀ u : Unit, inspectExpiry strptime now (.error u) = (none, none))
  ∧ (∀ (rc : Int) (stdout : String), rc ≠ 0 →
       inspectExpiry strptime now (.ok (rc, stdout)) = (none, none))
  ∧ (∀ stdout : String, subAfter notAfterMarker stdout.toList = none →
       inspectExpiry strptime now (.ok (0, stdout)) = (none, none))
  ∧ (∀ (stdout : String) (suffix : List Char),
       subAfter notAfterMarker stdout.toList ≠ none →
       subAfter notAfterMarker (pyStrip stdout.toList) = some suffix →
       strptime (String.mk (pyStrip suffix)) = none →
       inspectExpiry strptime now (.ok (0, stdout)) =
         (some (String.mk (pyStrip suffix)), none))
  ∧ (∀ (inspect inspect2 : String → InspectResult)
       (strptime2 : String → Option Int) (now2 : Int) (fs : ScanFS),
       (list_live_certs strptime now inspect fs).map (fun c => (c.account_id, c.name)) =
       (list_live_certs strptime2 now2 inspect2 fs).map (fun c => (c.account_id, c.name))) := by
  refine ⟨fun u => rfl, ?_, ?_, ?_, ?_⟩
  · intro rc stdout h
    simp only [inspectExpiry]
    rw [if_neg]
    intro hc
    exact h hc.1
  · intro stdout h
    simp only [inspectExpiry]
    rw [if_neg]
    intro hc
    rw [h] at hc
    exact absurd hc.2 (by simp)
  · intro stdout suffix h1 h2 h3
    simp only [inspectExpiry]
    rw [if_pos ⟨trivial, Option.ne_none_iff_isSome.mp h1⟩, h2]
    simp only [h3]
  · intro inspect inspect2 strptime2 now2 fs
    rw [scan_map_key, scan_map_key]

theorem C5_inspection_failure_witness :
    ((1 : Int) ≠ 0) ∧
      inspectExpiry (fun _ => none) 0 (.ok (1, "x")) = (none, none) :=
  ⟨by decide, (C5_inspection_failure (fun _ => none) 0).2.1 1 "x" (by decide)⟩


theorem scan_mem_sound (strptime : String → Option Int) (now : Int)
    (inspect : String → InspectResult) (fs : ScanFS) (c : CertInfo)
    (hc : c ∈ list_live_certs strptime now inspect fs) :
    ∃ acc ∈ fs.accountEntries, acc.isDir = true ∧ acc.liveExists = true ∧
      c.account_id = acc.name ∧
      ∃ d ∈ acc.liveEntries, d.isDir = true ∧ c.name = d.name ∧
        certFilesPresent d = true := by
  unfold list_live_certs at hc
  by_cases hroot : fs.accountsRootExists = true
  · simp only [hroot, Bool.not_true, Bool.false_eq_true, if_false] at hc
    obtain ⟨acc, hacc, hc⟩ := List.mem_flatMap.mp hc
    have haccmem : acc ∈ fs.accountEntries :=
      (List.perm_insertionSort accEntryLe fs.accountEntries).mem_iff.mp hacc
    by_cases hdir : acc.isDir = true
    · by_cases hlive : acc.liveExists = true
      · simp only [hdir, hlive, Bool.not_true, Bool.false_eq_true, if_false] at hc
        obtain ⟨d, hd, hc⟩ := List.mem_flatMap.mp hc
        have hdmem : d ∈ acc.liveEntries :=
          (List.perm_insertionSort liveEntryLe acc.liveEntries).mem_iff.mp hd
        by_cases hddir : d.isDir = true
        · by_cases hfiles : certFilesPresent d = true
          · simp only [hddir, hfiles, Bool.not_true, Bool.false_eq_true,
              if_false, if_true, List.mem_singleton] at hc
            subst hc
            exact ⟨acc, haccmem, hdir, hlive, rfl, d, hdmem, hddir, rfl, hfiles⟩
          · simp [hddir, hfiles] at hc
        · simp [hddir] at hc
      · simp [hdir, hlive] at hc
    · simp [hdir] at hc
  · simp only [Bool.not_eq_true] at hroot
    simp [hroot] at hc

theorem mem_block_fst (acc : AccEntry) (x : String × String)
    (hx : x ∈ (if !acc.isDir then ([] : List (String × String))
      else if !acc.liveExists then []
      else ((sortLiveEntries acc.liveEntries).filter
          (fun d => d.isDir && certFilesPresent d)).map
        (fun d => (acc.name, d.name)))) : x.1 = acc.name := by
  by_cases h1 : acc.isDir = true
  · by_cases h2 : acc.liveExists = true
    · simp only [h1, h2, Bool.not_true, Bool.false_eq_true, if_false] at hx
      obtain ⟨d, _, rfl⟩ := List.mem_map.mp hx
      rfl
    · simp [h1, h2] at hx
  · simp [h1] at hx

theorem candidateKeys_pairwise (fs : ScanFS)
    (hA : (fs.accountEntries.map AccEntry.name).Nodup)
    (hL : ∀ a ∈ fs.accountEntries, (a.liveEntries.map LiveEntry.name).Nodup) :
    List.Pairwise keyLt (candidateKeys fs) := by
  unfold candidateKeys
  by_cases hroot : fs.accountsRootExists = true
  · simp only [hroot, Bool.not_true, Bool.false_eq_true, if_false]
    rw [List.pairwise_flatMap]
    constructor
    · intro acc hacc
      by_cases hdir : acc.isDir = true
      · by_cases hlive : acc.liveExists = true
        · simp only [hdir, hlive, Bool.not_true, Bool.false_eq_true, if_false]
          rw [List.pairwise_map]
          have haccmem : acc ∈ fs.accountEntries :=
            (List.perm_insertionSort accEntryLe fs.accountEntries).mem_iff.mp hacc
          have hsorted : List.Pairwise liveEntryLe (sortLiveEntries acc.liveEntries) :=
            List.sorted_insertionSort liveEntryLe acc.liveEntries
          have hnodup : ((sortLiveEntries acc.liveEntries).map LiveEntry.name).Nodup :=
            (((List.perm_insertionSort liveEntryLe acc.liveEntries).map
              LiveEntry.name).symm).nodup (hL acc haccmem)
          have hne : List.Pairwise (fun d1 d2 : LiveEntry => d1.name ≠ d2.name)
              (sortLiveEntries acc.liveEntries) := List.pairwise_map.mp hnodup
          have hstrict : List.Pairwise
              (fun d1 d2 : LiveEntry => keyLt (acc.name, d1.name) (acc.name, d2.name))
              (sortLiveEntries acc.liveEntries) := by
            apply List.Pairwise.imp ?_ (hsorted.and hne)
            intro d1 d2 hd
            right
            exact ⟨rfl, hd.1, fun h => hd.2 (string_eq_of_toList_eq h)⟩
          exact hstrict.sublist (List.filter_sublist _)
        · simp [hdir, hlive]
      · simp [hdir]
    · have hsorted : List.Pairwise accEntryLe (sortAccEntries fs.accountEntries) :=
        List.sorted_insertionSort accEntryLe fs.accountEntries
      have hnodup : ((sortAccEntries fs.accountEntries).map AccEntry.name).Nodup :=
        (((List.perm_insertionSort accEntryLe fs.accountEntries).map
          AccEntry.name).symm).nodup hA
      have hne : List.Pairwise (fun a1 a2 : AccEntry => a1.name ≠ a2.name)
          (sortAccEntries fs.accountEntries) := List.pairwise_map.mp hnodup
      apply List.Pairwise.imp ?_ (hsorted.and hne)
      intro a1 a2 ha x hx y hy
      left
      rw [mem_block_fst a1 x hx, mem_block_fst a2 y hy]
      exact ⟨ha.1, fun h => ha.2 (string_eq_of_toList_eq h)⟩
  · simp only [Bool.not_eq_true] at hroot
    simp [hroot]

theorem sortAccEntries_eq_of_perm (l1 l2 : List AccEntry)
    (hperm : l1.Perm l2) (hnd : (l2.map AccEntry.name).Nodup) :
    sortAccEntries l1 = sortAccEntries l2 := by
  have hasymm : ∀ a b : AccEntry,
      (accEntryLe a b ∧ a.name ≠ b.name) → (accEntryLe b a ∧ b.name ≠ a.name) → False :=
    fun a b h1 h2 => h1.2 (string_eq_of_toList_eq (lexLe_antisymm h1.1 h2.1))
  have hp : (sortAccEntries l1).Perm (sortAccEntries l2) :=
    (List.perm_insertionSort accEntryLe l1).trans
      (hperm.trans (List.perm_insertionSort accEntryLe l2).symm)
  have hnd1 : (l1.map AccEntry.name).Nodup := ((hperm.map AccEntry.name).symm).nodup hnd
  have hn1 : ((sortAccEntries l1).map AccEntry.name).Nodup :=
    (((List.perm_insertionSort accEntryLe l1).map AccEntry.name).symm).nodup hnd1
  have hn2 : ((sortAccEntries l2).map AccEntry.name).Nodup :=
    (((List.perm_insertionSort accEntryLe l2).map AccEntry.name).symm).nodup hnd
  exact eq_of_perm_of_pairwise hasymm hp
    ((List.sorted_insertionSort accEntryLe l1).and (List.pairwise_map.mp hn1))
    ((List.sorted_insertionSort accEntryLe l2).and (List.pairwise_map.mp hn2))

/-- Claim C6: the scanner lists a certificate directory only if
fullchain.pem, privkey.pem and cert.pem all exist under it; a directory
missing any one of them (for instance privkey.pem) is silently skipped: no
entry of the listing carries its (account, name) key. -/
theorem C6_three_file_gate :
    (∀ (strptime : String → Option Int) (now : Int)
       (inspect : String → InspectResult) (fs : ScanFS) (c : CertInfo),
       c ∈ list_live_certs strptime now inspect fs →
       ∃ acc ∈ fs.accountEntries, acc.isDir = true ∧ acc.liveExists = true ∧
         c.account_id = acc.name ∧
         ∃ d ∈ acc.liveEntries, d.isDir = true ∧ c.name = d.name ∧
           (d.files.contains "fullchain.pem" = true ∧
            d.files.contains "privkey.pem" = true ∧
            d.files.contains "cert.pem" = true))
  ∧ (∀ (strptime : String → Option Int) (now : Int)
       (inspect : String → InspectResult) (fs : ScanFS),
       (fs.accountEntries.map AccEntry.name).Nodup →
       (∀ a ∈ fs.accountEntries, (a.liveEntries.map LiveEntry.name).Nodup) →
       ∀ acc ∈ fs.accountEntries, ∀ d ∈ acc.liveEntries,
         d.files.contains "privkey.pem" = false →
         ∀ c ∈ list_live_certs strptime now inspect fs,
           ¬(c.account_id = acc.name ∧ c.name = d.name)) := by
  constructor
  · intro strptime now inspect fs c hc
    obtain ⟨acc, haccmem, hdir, hlive, hca, d, hdmem, hddir, hcn, hfiles⟩ :=
      scan_mem_sound strptime now inspect fs c hc
    simp only [certFilesPresent, Bool.and_eq_true] at hfiles
    exact ⟨acc, haccmem, hdir, hlive, hca, d, hdmem, hddir, hcn,
      hfiles.1.1, hfiles.1.2, hfiles.2⟩
  · intro strptime now inspect fs hA hL acc haccmem d hdmem hpriv c hc hkey
    obtain ⟨acc2, hacc2, _, _, hca2, d2, hd2, _, hcn2, hfiles2⟩ :=
      scan_mem_sound strptime now inspect fs c hc
    have haccs : acc2 = acc :=
      List.inj_on_of_nodup_map hA hacc2 haccmem (hca2.symm.trans hkey.1)
    subst haccs
    have hds : d2 = d :=
      List.inj_on_of_nodup_map (hL acc2 hacc2) hd2 hdmem (hcn2.symm.trans hkey.2)
    subst hds
    simp only [certFilesPresent, Bool.and_eq_true] at hfiles2
    exact absurd hfiles2.1.2 (by rw [hpriv]; simp)

theorem C6_three_file_gate_witness :
    (fsNoKey.accountEntries.map AccEntry.name).Nodup ∧
    (∀ c ∈ list_live_certs (fun _ => none) 0 (fun _ => .error ()) fsNoKey,
       ¬(c.account_id = "1" ∧ c.name = "x")) :=
  ⟨by decide,
   C6_three_file_gate.2 (fun _ => none) 0 (fun _ => .error ()) fsNoKey
     (by decide) (by decide)
     ⟨"1", true, true, [⟨"x", true, ["fullchain.pem", "cert.pem"]⟩]⟩ (by decide)
     ⟨"x", true, ["fullchain.pem", "cert.pem"]⟩ (by decide) (by decide)⟩

/-- Claim C9: scanner output order is deterministic and lexicographic: the
emitted (account id, name) keys are strictly increasing by account
directory name then certificate directory name (both as strings, with no
numeric interpretation, so account "10" precedes account "2"), and the
output does not depend on the order the directory entries are enumerated
in. -/
theorem C9_scan_order (strptime : String → Option Int) (now : Int)
    (inspect : String → InspectResult) (fs : ScanFS)
    (hA : (fs.accountEntries.map AccEntry.name).Nodup)
    (hL : ∀ a ∈ fs.accountEntries, (a.liveEntries.map LiveEntry.name).Nodup) :
    List.Pairwise keyLt
      ((list_live_certs strptime now inspect fs).map (fun c => (c.account_id, c.name)))
  ∧ (∀ entries2 : List AccEntry, entries2.Perm fs.accountEntries →
       list_live_certs strptime now inspect ⟨fs.accountsRootExists, entries2⟩ =
         list_live_certs strptime now inspect fs)
  ∧ (list_live_certs (fun _ => none) 0 (fun _ => .error ()) fsTen).map
      (fun c => c.account_id) = ["10", "2"] := by
  refine ⟨?_, ?_, by decide⟩
  · rw [scan_map_key]
    exact candidateKeys_pairwise fs hA hL
  · intro entries2 hperm
    have hsort : sortAccEntries entries2 = sortAccEntries fs.accountEntries :=
      sortAccEntries_eq_of_perm entries2 fs.accountEntries hperm hA
    unfold list_live_certs
    dsimp only
    rw [hsort]

theorem C9_scan_order_witness :
    (fsTen.accountEntries.map AccEntry.name).Nodup ∧
      List.Pairwise keyLt
        ((list_live_certs (fun _ => none) 0 (fun _ => .error ()) fsTen).map
          (fun c => (c.account_id, c.name))) :=
  ⟨by decide,
   (C9_scan_order (fun _ => none) 0 (fun _ => .error ()) fsTen
     (by decide) (by decide)).1⟩

end LEManager
